import Mathlib

set_option maxHeartbeats 1000000
set_option maxRecDepth 8192

/-!
Shallow embedding, over exact rationals, of the mcopt event generator
(`src/src/EventGen.cpp`) and of the sampling step of the Monte Carlo
minimizer (declared in `src/MCminimizer.h`).  Armadillo matrices are
lists of row records; the transcendental library functions used by the
code (`std::exp`, `std::sqrt`, `std::cos`, `std::sin`, `std::tan`) are
abstract parameters of the embedding, since none of the verified
properties depend on their values.
-/

/-- A row of a 3-column armadillo position matrix: (x, y, z). -/
structure V3 where
  x : ℚ
  y : ℚ
  z : ℚ
deriving DecidableEq

/-- One row of `calibrate(pos, vd, clock)` from EventGen.cpp:
`result = pos + pos.col(2) * -vd.t() / (clock * 1e-4)` followed by
`result.col(2) -= pos.col(2)`. -/
def calibrateRow (vd : V3) (clock : ℚ) (p : V3) : V3 :=
  let r : V3 := ⟨p.x + p.z * (-vd.x) / (clock * (1/10000)),
                 p.y + p.z * (-vd.y) / (clock * (1/10000)),
                 p.z + p.z * (-vd.z) / (clock * (1/10000))⟩
  ⟨r.x, r.y, r.z - p.z⟩

/-- `calibrate(pos, vd, clock)`: the whole-matrix armadillo expression acts
row by row. -/
def calibrate (pos : List V3) (vd : V3) (clock : ℚ) : List V3 :=
  pos.map (calibrateRow vd clock)

/-- One row of `uncalibrate(pos, vd, clock, offset)` from EventGen.cpp:
`tbs = pos.col(2) * clock * 1e-4 / (-vd(2)) + offset`,
`result = pos - tbs * -vd.t() / (clock * 1e-4)`, `result.col(2) = tbs`. -/
def uncalibrateRow (vd : V3) (clock : ℚ) (offset : ℤ) (p : V3) : V3 :=
  let tb : ℚ := p.z * clock * (1/10000) / (-vd.z) + (offset : ℚ)
  ⟨p.x - tb * (-vd.x) / (clock * (1/10000)),
   p.y - tb * (-vd.y) / (clock * (1/10000)),
   tb⟩

/-- `uncalibrate(pos, vd, clock, offset)` acting row by row. -/
def uncalibrate (pos : List V3) (vd : V3) (clock : ℚ) (offset : ℤ) : List V3 :=
  pos.map (uncalibrateRow vd clock offset)

theorem uncalibrateRow_calibrateRow (vd : V3) (clock : ℚ) (hv : vd.z ≠ 0)
    (hc : clock ≠ 0) (p : V3) :
    uncalibrateRow vd clock 0 (calibrateRow vd clock p) = p := by
  have hc4 : clock * (1/10000 : ℚ) ≠ 0 := by
    exact mul_ne_zero hc (by norm_num)
  cases p with
  | mk x y z =>
    simp only [uncalibrateRow, calibrateRow, V3.mk.injEq, Int.cast_zero, add_zero]
    refine ⟨?_, ?_, ?_⟩ <;> field_simp <;> ring

theorem calibrateRow_uncalibrateRow (vd : V3) (clock : ℚ) (hv : vd.z ≠ 0)
    (hc : clock ≠ 0) (p : V3) :
    calibrateRow vd clock (uncalibrateRow vd clock 0 p) = p := by
  have hc4 : clock * (1/10000 : ℚ) ≠ 0 := by
    exact mul_ne_zero hc (by norm_num)
  cases p with
  | mk x y z =>
    simp only [uncalibrateRow, calibrateRow, V3.mk.injEq, Int.cast_zero, add_zero]
    refine ⟨?_, ?_, ?_⟩ <;> field_simp <;> ring

/-- C1: for every position matrix in raw detector coordinates, every drift
velocity with nonzero z-component and every (nonzero) clock frequency,
`uncalibrate(calibrate(p, vd, clock), vd, clock)` with offset 0 equals `p`,
and the composition in the opposite order is also the identity.  Over the
exact rationals the round trip is exact. -/
theorem calibrate_uncalibrate_roundtrip (pos : List V3) (vd : V3) (clock : ℚ)
    (hv : vd.z ≠ 0) (hc : clock ≠ 0) :
    uncalibrate (calibrate pos vd clock) vd clock 0 = pos ∧
    calibrate (uncalibrate pos vd clock 0) vd clock = pos := by
  constructor
  · simp only [uncalibrate, calibrate, List.map_map]
    conv_rhs => rw [← List.map_id pos]
    refine List.map_congr_left ?_
    intro p _
    exact uncalibrateRow_calibrateRow vd clock hv hc p
  · simp only [uncalibrate, calibrate, List.map_map]
    conv_rhs => rw [← List.map_id pos]
    refine List.map_congr_left ?_
    intro p _
    exact calibrateRow_uncalibrateRow vd clock hv hc p

/-- Witness for C1 at a concrete matrix, drift velocity and clock. -/
theorem calibrate_uncalibrate_roundtrip_witness :
    (V3.mk 0 0 (-1)).z ≠ 0 ∧ (2 : ℚ) ≠ 0 ∧
    (uncalibrate (calibrate [⟨1, 2, 3⟩] ⟨0, 0, -1⟩ 2) ⟨0, 0, -1⟩ 2 0 = [⟨1, 2, 3⟩] ∧
     calibrate (uncalibrate [⟨1, 2, 3⟩] ⟨0, 0, -1⟩ 2 0) ⟨0, 0, -1⟩ 2 = [⟨1, 2, 3⟩]) :=
  ⟨by decide, by decide,
   calibrate_uncalibrate_roundtrip [⟨1, 2, 3⟩] ⟨0, 0, -1⟩ 2 (by decide) (by decide)⟩

/-- A row of the 4-column matrix (x, y, z, numElectrons) handled by
`EventGenerator::diffuseElectrons` and the event-building loop. -/
structure Row4 where
  x : ℚ
  y : ℚ
  z : ℚ
  a : ℚ
deriving DecidableEq

/-- The constant `diffPts` matrix of `EventGenerator::diffuseElectrons`:
cardinal offsets of size `diffSigma` and diagonal offsets of size
`diffSigmaDiag = diffSigma * sqrt(2)`. -/
def diffPts (diffSigma diffSigmaDiag : ℚ) : List (ℚ × ℚ) :=
  [(diffSigma, 0), (-diffSigma, 0), (0, diffSigma), (0, -diffSigma),
   (diffSigmaDiag, diffSigmaDiag), (diffSigmaDiag, -diffSigmaDiag),
   (-diffSigmaDiag, diffSigmaDiag), (-diffSigmaDiag, -diffSigmaDiag)]

/-- `EventGenerator::diffuseElectrons(tr)`: the first `numPts` output rows
are the input rows with the amplitude column scaled by `centerAmpl = 0.4`;
then, for each of the 8 diffusion offsets, a block of `numPts` satellite
rows offset in (x, y) by the diffusion point scaled by `sqrt(z)`, with
amplitude `diffAmpl = (1 - 0.4) / 8` times the original.  `sqrtF`
abstracts `std::sqrt`. -/
def diffuseElectrons (sqrtF : ℚ → ℚ) (diffSigma : ℚ) (tr : List Row4) : List Row4 :=
  let diffSigmaDiag := diffSigma * sqrtF 2
  let centerAmpl : ℚ := 4/10
  let diffAmpl : ℚ := (1 - centerAmpl) / 8
  let center := tr.map (fun p => Row4.mk p.x p.y p.z (p.a * centerAmpl))
  let sats := (diffPts diffSigma diffSigmaDiag).map (fun d =>
    tr.map (fun p =>
      Row4.mk (p.x + d.1 * sqrtF p.z) (p.y + d.2 * sqrtF p.z) p.z (p.a * diffAmpl)))
  center ++ sats.flatten

theorem getElem?_flatten_uniform {α : Type} (bs : List (List α)) (n : ℕ)
    (hn : ∀ b ∈ bs, b.length = n) (k i : ℕ) (hi : i < n) :
    bs.flatten[k * n + i]? = bs[k]?.bind (fun b => b[i]?) := by
  induction bs generalizing k with
  | nil => simp
  | cons b bs ih =>
    have hb : b.length = n := hn b (List.mem_cons_self b bs)
    cases k with
    | zero =>
      rw [List.flatten_cons, zero_mul, zero_add,
        List.getElem?_append_left (by omega)]
      simp
    | succ k =>
      rw [List.flatten_cons, List.getElem?_append_right (by
        calc b.length = n := hb
          _ ≤ (k + 1) * n + i := by
            calc n ≤ (k + 1) * n := Nat.le_mul_of_pos_left n (Nat.succ_pos k)
              _ ≤ (k + 1) * n + i := Nat.le_add_right _ _)]
      have harith : (k + 1) * n + i - b.length = k * n + i := by
        rw [hb, Nat.succ_mul]
        omega
      rw [harith, ih (fun c hc => hn c (List.mem_cons_of_mem b hc)) k]
      simp

theorem diffuseElectrons_length (sqrtF : ℚ → ℚ) (diffSigma : ℚ) (tr : List Row4) :
    (diffuseElectrons sqrtF diffSigma tr).length = 9 * tr.length := by
  simp [diffuseElectrons, diffPts, List.length_flatten]
  ring

theorem diffuseElectrons_getElem_center (sqrtF : ℚ → ℚ) (diffSigma : ℚ)
    (tr : List Row4) (i : ℕ) (hi : i < tr.length) :
    (diffuseElectrons sqrtF diffSigma tr)[i]? =
      (tr[i]?).map (fun p => Row4.mk p.x p.y p.z (p.a * (4/10))) := by
  simp only [diffuseElectrons]
  rw [List.getElem?_append_left (by simpa using hi), List.getElem?_map]

theorem diffuseElectrons_getElem_sat (sqrtF : ℚ → ℚ) (diffSigma : ℚ)
    (tr : List Row4) (i k : ℕ) (hi : i < tr.length) (hk : k < 8) :
    ((diffuseElectrons sqrtF diffSigma tr)[(k + 1) * tr.length + i]?).map Row4.a
      = (tr[i]?).map (fun p => p.a * ((1 - 4/10) / 8)) := by
  have hle : tr.length ≤ (k + 1) * tr.length + i :=
    le_trans (Nat.le_mul_of_pos_left tr.length (Nat.succ_pos k)) (Nat.le_add_right _ _)
  have harith : (k + 1) * tr.length + i - tr.length = k * tr.length + i := by
    rw [Nat.succ_mul]
    omega
  have hdp : k < (diffPts diffSigma (diffSigma * sqrtF 2)).length := by
    simpa [diffPts] using hk
  simp only [diffuseElectrons]
  rw [List.getElem?_append_right (by simpa using hle)]
  rw [List.length_map, harith]
  rw [getElem?_flatten_uniform _ tr.length (by
        intro b hb
        rcases List.mem_map.mp hb with ⟨d, hd, rfl⟩
        simp) k i hi]
  rw [List.getElem?_map, List.getElem?_eq_getElem hdp]
  cases htr : tr[i]? with
  | none => simp [htr]
  | some p => simp [htr]

/-- C2: for every input row of `diffuseElectrons` with charge amplitude A,
the output matrix has 9 times as many rows as the input, the center copy
at the original location keeps amplitude exactly 0.4*A, each of the eight
satellite copies has amplitude exactly (0.6/8)*A, and the nine derived
amplitudes sum to A. -/
theorem diffuseElectrons_charge_split (sqrtF : ℚ → ℚ) (diffSigma : ℚ)
    (tr : List Row4) (i : ℕ) (p : Row4) (hp : tr[i]? = some p) :
    (diffuseElectrons sqrtF diffSigma tr).length = 9 * tr.length ∧
    ((diffuseElectrons sqrtF diffSigma tr)[i]?).map Row4.a = some ((4/10) * p.a) ∧
    (∀ k, k < 8 →
      ((diffuseElectrons sqrtF diffSigma tr)[(k + 1) * tr.length + i]?).map Row4.a
        = some ((6/10) / 8 * p.a)) ∧
    (4/10) * p.a + 8 * ((6/10) / 8 * p.a) = p.a := by
  have hi : i < tr.length := (List.getElem?_eq_some.mp hp).1
  refine ⟨diffuseElectrons_length sqrtF diffSigma tr, ?_, ?_, by ring⟩
  · rw [diffuseElectrons_getElem_center sqrtF diffSigma tr i hi, hp]
    simp [mul_comm]
  · intro k hk
    rw [diffuseElectrons_getElem_sat sqrtF diffSigma tr i k hi hk, hp]
    norm_num [mul_comm]

/-- Witness for C2 on a concrete one-row matrix with amplitude 10. -/
theorem diffuseElectrons_charge_split_witness :
    ([Row4.mk 0 0 1 10] : List Row4)[0]? = some (Row4.mk 0 0 1 10) ∧
    ((diffuseElectrons id 1 [Row4.mk 0 0 1 10]).length = 9 * [Row4.mk 0 0 1 10].length ∧
     ((diffuseElectrons id 1 [Row4.mk 0 0 1 10])[0]?).map Row4.a
        = some ((4/10) * (Row4.mk 0 0 1 10).a) ∧
     (∀ k, k < 8 →
       ((diffuseElectrons id 1 [Row4.mk 0 0 1 10])[(k + 1) * [Row4.mk 0 0 1 10].length + 0]?).map Row4.a
          = some ((6/10) / 8 * (Row4.mk 0 0 1 10).a)) ∧
     (4/10) * (Row4.mk 0 0 1 10).a + 8 * ((6/10) / 8 * (Row4.mk 0 0 1 10).a)
        = (Row4.mk 0 0 1 10).a) :=
  ⟨by decide, diffuseElectrons_charge_split id 1 [Row4.mk 0 0 1 10] 0 (Row4.mk 0 0 1 10) (by decide)⟩

/-- `EventGenerator::numElec(en)`: a result vector of the same length,
`result(0) = 0` and `result(span(1, numPts-1)) = floor(-diff(en * 1e6 *
massNum) / ioniz)` (the scaling `en * 1e6 * massNum` is rendered inside
each difference).  The span access needs at least two samples; with fewer,
armadillo raises a bounds error, modelled by `none`. -/
def numElec (massNum : ℕ) (ioniz : ℚ) (en : List ℚ) : Option (List ℚ) :=
  if 2 ≤ en.length then
    some ((0 : ℚ) :: (List.range (en.length - 1)).map (fun j =>
      ((⌊-(en.getD (j + 1) 0 * 1000000 * (massNum : ℚ)
            - en.getD j 0 * 1000000 * (massNum : ℚ)) / ioniz⌋ : ℤ) : ℚ)))
  else none

/-- C7: for every energy vector with at least two elements, `numElec`
returns a vector of the same length whose first element is 0 and whose
i-th element (i ≥ 1) is `floor(-(en(i) - en(i-1)) * 1e6 * massNum /
ioniz)`. -/
theorem numElec_finite_difference (massNum : ℕ) (ioniz : ℚ) (en : List ℚ)
    (h2 : 2 ≤ en.length) :
    ∃ res, numElec massNum ioniz en = some res ∧
      res.length = en.length ∧
      res[0]? = some 0 ∧
      ∀ i, 1 ≤ i → i < en.length →
        res[i]? = some ((⌊-(en.getD i 0 - en.getD (i - 1) 0) * 1000000
            * (massNum : ℚ) / ioniz⌋ : ℤ) : ℚ) := by
  refine ⟨_, by rw [numElec, if_pos h2], ?_, by simp, ?_⟩
  · simp only [List.length_cons, List.length_map, List.length_range]
    omega
  · intro i h1 hlen
    obtain ⟨j, rfl⟩ : ∃ j, i = j + 1 := ⟨i - 1, by omega⟩
    rw [List.getElem?_cons_succ, List.getElem?_map,
      List.getElem?_range (by omega : j < en.length - 1)]
    have harg : -(en.getD (j + 1) 0 * 1000000 * (massNum : ℚ)
          - en.getD j 0 * 1000000 * (massNum : ℚ)) / ioniz
        = -(en.getD (j + 1) 0 - en.getD (j + 1 - 1) 0) * 1000000 * (massNum : ℚ) / ioniz := by
      simp only [Nat.add_sub_cancel]
      ring
    simp only [Option.map_some', harg]

/-- Witness for C7 on the concrete energy vector [5, 3]. -/
theorem numElec_finite_difference_witness :
    2 ≤ ([5, 3] : List ℚ).length ∧
    (∃ res, numElec 1 1 [5, 3] = some res ∧
      res.length = ([5, 3] : List ℚ).length ∧
      res[0]? = some 0 ∧
      ∀ i, 1 ≤ i → i < ([5, 3] : List ℚ).length →
        res[i]? = some ((⌊-(([5, 3] : List ℚ).getD i 0 - ([5, 3] : List ℚ).getD (i - 1) 0)
            * 1000000 * ((1 : ℕ) : ℚ) / 1⌋ : ℤ) : ℚ)) :=
  ⟨by decide, numElec_finite_difference 1 1 [5, 3] (by decide)⟩

/-- `unTiltAndRecenter(pos, tilt)` from EventGen.cpp: rotation about the
x-axis by `-tilt` (the `tmat` matrix), then `res.col(1) -= tan(tilt)`.
`cosF`, `sinF`, `tanF` abstract `std::cos`, `std::sin`, `std::tan`. -/
def unTiltAndRecenter (cosF sinF tanF : ℚ → ℚ) (pos : List V3) (tilt : ℚ) : List V3 :=
  pos.map (fun p =>
    let r : V3 := ⟨p.x,
                   cosF (-tilt) * p.y - sinF (-tilt) * p.z,
                   sinF (-tilt) * p.y + cosF (-tilt) * p.z⟩
    ⟨r.x, r.y - tanF tilt, r.z⟩)

/-- `EventGenerator::prepareTrack(pos, en)`: detilt/recenter, uncalibrate
with offset 0, adjoin the electron-count column from `numElec`, then
diffuse.  The `assert(en.n_rows == nrows)` and the bounds error inside
`numElec` are modelled by `none`. -/
def prepareTrack (cosF sinF tanF sqrtF : ℚ → ℚ) (vd : V3)
    (clock tilt diffSigma : ℚ) (massNum : ℕ) (ioniz : ℚ)
    (pos : List V3) (en : List ℚ) : Option (List Row4) :=
  if en.length = pos.length then
    (numElec massNum ioniz en).map (fun ne =>
      diffuseElectrons sqrtF diffSigma
        (List.zipWith (fun (p : V3) (q : ℚ) => Row4.mk p.x p.y p.z q)
          (uncalibrate (unTiltAndRecenter cosF sinF tanF pos tilt) vd clock 0) ne))
  else none

/-- C10: `numElec` errors on energy vectors of fewer than two samples
(the `span(1, numPts-1)` access is out of bounds; the error branch of the
embedding is `none` and is reachable), while under the precondition of at
least two samples the error branch is unreachable — in particular through
`prepareTrack` on trajectories of at least two points. -/
theorem numElec_requires_two_samples (massNum : ℕ) (ioniz : ℚ) :
    numElec massNum ioniz [] = none ∧
    (∀ e : ℚ, numElec massNum ioniz [e] = none) ∧
    (∀ en : List ℚ, 2 ≤ en.length → (numElec massNum ioniz en).isSome = true) ∧
    (∀ (cosF sinF tanF sqrtF : ℚ → ℚ) (vd : V3) (clock tilt diffSigma : ℚ)
       (pos : List V3) (en : List ℚ), en.length = pos.length → 2 ≤ en.length →
       (prepareTrack cosF sinF tanF sqrtF vd clock tilt diffSigma
          massNum ioniz pos en).isSome = true) := by
  refine ⟨by simp [numElec], fun e => by simp [numElec],
    fun en h2 => by simp [numElec, h2], ?_⟩
  intro cosF sinF tanF sqrtF vd clock tilt diffSigma pos en hlen h2
  rw [prepareTrack, if_pos hlen]
  simp [numElec, h2]

/-- Witness for C10 at concrete short and long energy vectors. -/
theorem numElec_requires_two_samples_witness :
    numElec 1 1 [] = none ∧ numElec 1 1 [(7 : ℚ)] = none ∧
    (numElec 1 1 [5, 3]).isSome = true ∧
    (prepareTrack id id id id ⟨0, 0, -1⟩ 1000000 0 1 1 1
       [⟨0, 0, 0⟩, ⟨0, 0, 1/2⟩] [5, 3]).isSome = true :=
  ⟨(numElec_requires_two_samples 1 1).1,
   (numElec_requires_two_samples 1 1).2.1 7,
   (numElec_requires_two_samples 1 1).2.2.1 [5, 3] (by decide),
   (numElec_requires_two_samples 1 1).2.2.2 id id id id ⟨0, 0, -1⟩ 1000000 0 1
     [⟨0, 0, 0⟩, ⟨0, 0, 1/2⟩] [5, 3] (by decide) (by decide)⟩

/-- `approxSin(t)` from EventGen.cpp: the 7th-order Taylor polynomial of
sine used by `elecPulse`. -/
def approxSin (t : ℚ) : ℚ :=
  t - t*t*t / 6 + t*t*t*t*t / 120 - t*t*t*t*t*t*t / 5040

/-- `elecPulse(amplitude, shape, clock, offset)` from EventGen.cpp: a
512-sample waveform, zero before `firstPt = ceil(offset)` and following
the analytic avalanche response from there on.  `expF` abstracts
`std::exp`; the cast of the ceiling to the unsigned loop start is
modelled by `Int.toNat`. -/
def elecPulse (expF : ℚ → ℚ) (amplitude shape clock offset : ℚ) : List ℚ :=
  (List.range 512).map (fun (i : ℕ) =>
    let s := shape * clock
    let t := ((i : ℚ) - offset) / s
    if (⌈offset⌉ : ℤ).toNat ≤ i then
      amplitude * expF (-3 * t) * approxSin t * (t * t * t) / (44/1000)
    else 0)

/-- C6: for every amplitude, shape time, clock frequency and offset,
`elecPulse` returns a 512-sample vector whose entry at every index
`i < ceil(offset)` is exactly zero. -/
theorem elecPulse_causal (expF : ℚ → ℚ) (amplitude shape clock offset : ℚ)
    (i : ℕ) (h512 : i < 512) (hceil : (i : ℤ) < ⌈offset⌉) :
    (elecPulse expF amplitude shape clock offset).length = 512 ∧
    (elecPulse expF amplitude shape clock offset)[i]? = some 0 := by
  constructor
  · simp only [elecPulse, List.length_map, List.length_range]
  · rw [elecPulse, List.getElem?_map, List.getElem?_range h512]
    have hnot : ¬ ((⌈offset⌉ : ℤ).toNat ≤ i) := by omega
    simp only [Option.map_some', if_neg hnot]

/-- Witness for C6 at offset 3/2 and index 1. -/
theorem elecPulse_causal_witness :
    (elecPulse id 1 1 1 (3/2)).length = 512 ∧ (elecPulse id 1 1 1 (3/2))[1]? = some 0 :=
  elecPulse_causal id 1 1 1 (3/2) 1 (by decide) (by rw [Int.lt_ceil]; norm_num)

/-- C8: for a trajectory point at z = 0.5 m with zero tilt, drift velocity
(0, 0, -1) cm/µs, clock 1 MHz (1e6 Hz) and offset 0, the uncalibrated
z-coordinate (time bucket) computed by the prepareTrack pipeline
(unTiltAndRecenter then uncalibrate) equals 0.5 * 1e6 * 1e-4 / 1 = 50,
both for the bare composition and for the center row that `prepareTrack`
derives from the second trajectory point. -/
theorem uncalibrated_timebucket_scenario (cosF sinF tanF sqrtF : ℚ → ℚ)
    (diffSigma : ℚ) (hcos : cosF 0 = 1) (hsin : sinF 0 = 0) (htan : tanF 0 = 0) :
    ((uncalibrate (unTiltAndRecenter cosF sinF tanF [⟨0, 0, 0⟩, ⟨0, 0, 1/2⟩] 0)
        ⟨0, 0, -1⟩ 1000000 0)[1]?).map V3.z
      = some ((1/2 : ℚ) * 1000000 * (1/10000) / 1) ∧
    (prepareTrack cosF sinF tanF sqrtF ⟨0, 0, -1⟩ 1000000 0 diffSigma 1 1
        [⟨0, 0, 0⟩, ⟨0, 0, 1/2⟩] [0, 0]).map (fun m => (m[1]?).map Row4.z)
      = some (some 50) ∧
    (1/2 : ℚ) * 1000000 * (1/10000) / 1 = 50 := by
  have h1 : unTiltAndRecenter cosF sinF tanF [⟨0, 0, 0⟩, ⟨0, 0, 1/2⟩] 0
      = [⟨0, 0, 0⟩, ⟨0, 0, 1/2⟩] := by
    simp [unTiltAndRecenter, hcos, hsin, htan]
  have h2 : uncalibrate [⟨0, 0, 0⟩, ⟨0, 0, 1/2⟩] ⟨0, 0, -1⟩ 1000000 0
      = [⟨0, 0, 0⟩, ⟨0, 0, 50⟩] := by
    simp [uncalibrate, uncalibrateRow]
    norm_num
  have h3 : numElec 1 1 [0, 0] = some [0, 0] := by
    norm_num [numElec, List.getD, List.range_succ]
  refine ⟨?_, ?_, by norm_num⟩
  · rw [h1, h2]
    norm_num
  · rw [prepareTrack, if_pos (by simp), h3]
    have hbase : List.zipWith (fun (p : V3) (q : ℚ) => Row4.mk p.x p.y p.z q)
        (uncalibrate (unTiltAndRecenter cosF sinF tanF [⟨0, 0, 0⟩, ⟨0, 0, 1/2⟩] 0)
          ⟨0, 0, -1⟩ 1000000 0) [0, 0]
        = [⟨0, 0, 0, 0⟩, ⟨0, 0, 50, 0⟩] := by
      rw [h1, h2]
      simp
    simp only [Option.map_some']
    rw [hbase]
    rw [diffuseElectrons_getElem_center sqrtF diffSigma [⟨0, 0, 0, 0⟩, ⟨0, 0, 50, 0⟩] 1
      (by simp)]
    simp

/-- Witness for C8 with concrete stand-ins for the trig functions. -/
theorem uncalibrated_timebucket_scenario_witness :
    (fun _ : ℚ => (1 : ℚ)) 0 = 1 ∧ (fun _ : ℚ => (0 : ℚ)) 0 = 0 ∧
    (((uncalibrate (unTiltAndRecenter (fun _ : ℚ => (1 : ℚ)) (fun _ : ℚ => (0 : ℚ))
          (fun _ : ℚ => (0 : ℚ)) [⟨0, 0, 0⟩, ⟨0, 0, 1/2⟩] 0) ⟨0, 0, -1⟩ 1000000 0)[1]?).map V3.z
        = some ((1/2 : ℚ) * 1000000 * (1/10000) / 1) ∧
     (prepareTrack (fun _ : ℚ => (1 : ℚ)) (fun _ : ℚ => (0 : ℚ)) (fun _ : ℚ => (0 : ℚ)) id
         ⟨0, 0, -1⟩ 1000000 0 1 1 1 [⟨0, 0, 0⟩, ⟨0, 0, 1/2⟩] [0, 0]).map
           (fun m => (m[1]?).map Row4.z)
        = some (some 50) ∧
     (1/2 : ℚ) * 1000000 * (1/10000) / 1 = 50) :=
  ⟨rfl, rfl,
   uncalibrated_timebucket_scenario (fun _ => 1) (fun _ => 0) (fun _ => 0) id 1 rfl rfl rfl⟩

/-- A per-pad signal: one 512-sample vector of the event map. -/
abbrev Signal := List ℚ

/-- The all-zero 512-sample signal (`padSignal.zeros(512)`), allocated
when a pad is first touched by the loop in `makeEvent`. -/
def zeroSignal : Signal := List.replicate 512 0

/-- The accumulation `padSignal += pulse` of two 512-sample signals. -/
def addSignal (a b : Signal) : Signal := List.zipWith (fun u v => u + v) a b

/-- The event `std::map<pad_t, arma::vec>` as an association list with
unique keys. -/
abbrev Event := List (ℕ × Signal)

/-- `std::map` lookup: the signal stored for a pad, if present. -/
def getSignal : Event → ℕ → Option Signal
  | [], _ => none
  | (q, t) :: rest, pad => if q = pad then some t else getSignal rest pad

/-- Writing `result[pad] = sig`: update the existing entry in place, or
append a new entry when the pad was absent. -/
def setSignal : Event → ℕ → Signal → Event
  | [], pad, sig => [(pad, sig)]
  | (q, t) :: rest, pad, sig =>
    if q = pad then (pad, sig) :: rest else (q, t) :: setSignal rest pad sig

theorem getSignal_setSignal (st : Event) (pad r : ℕ) (sig : Signal) :
    getSignal (setSignal st pad sig) r = if pad = r then some sig else getSignal st r := by
  induction st with
  | nil =>
    by_cases hr : pad = r <;> simp [setSignal, getSignal, hr]
  | cons kv rest ih =>
    obtain ⟨q, t⟩ := kv
    simp only [setSignal]
    by_cases hq : q = pad
    · rw [if_pos hq]
      by_cases hr : pad = r
      · simp [getSignal, hr]
      · have hqr : ¬ q = r := by rw [hq]; exact hr
        simp [getSignal, hr, hqr]
    · rw [if_neg hq]
      by_cases hr : q = r
      · subst hr
        have hpr : ¬ pad = q := fun h => hq h.symm
        simp [getSignal, hpr]
      · simp [getSignal, hr, ih]

/-- The body of the loop in `EventGenerator::makeEvent`: look up the pad
for the point's (x, y); if it is the sentinel 20000 the point is skipped
entirely; otherwise the pad's signal is obtained (`result[pad]`, zeroed
on first use), and then — unless the time bucket exceeds 511 (`if (offset
> 511) continue`, the throwing branch being commented out in the source)
— the electronics pulse of the point is accumulated onto it.  `padF`
abstracts `PadPlane::getPadNumberFromCoordinates`. -/
def processPoint (padF : ℚ → ℚ → ℕ) (expF : ℚ → ℚ) (convFactor shape clock : ℚ)
    (st : Event) (u : Row4) : Event :=
  let pad := padF u.x u.y
  if pad ≠ 20000 then
    let padSignal := (getSignal st pad).getD zeroSignal
    if u.z > 511 then setSignal st pad padSignal
    else setSignal st pad
      (addSignal padSignal (elecPulse expF (convFactor * u.a) shape clock u.z))
  else st

/-- The loop of `EventGenerator::makeEvent(pos, en)` over the prepared
track: `for (i = 0; i < uncal.n_rows - 1; i++)`, i.e. over every diffused
point except the last, accumulating into an initially empty map. -/
def makeEventLoop (padF : ℚ → ℚ → ℕ) (expF : ℚ → ℚ) (convFactor shape clock : ℚ)
    (uncal : List Row4) : Event :=
  uncal.dropLast.foldl (processPoint padF expF convFactor shape clock) []

/-- `EventGenerator::conversionFactor()`:
`micromegasGain * Constants::E_CHG / electronicsGain * 4096`.  `eChg`
abstracts the physical constant `Constants::E_CHG`, whose header is not
among the sources. -/
def conversionFactor (micromegasGain eChg electronicsGain : ℚ) : ℚ :=
  micromegasGain * eChg / electronicsGain * 4096

/-- `EventGenerator::makeEvent(pos, en)`: prepare the track, then run the
per-point accumulation loop with amplitude scale `conversionFactor()`. -/
def makeEvent (padF : ℚ → ℚ → ℕ) (cosF sinF tanF sqrtF expF : ℚ → ℚ) (vd : V3)
    (clock tilt diffSigma : ℚ) (massNum : ℕ)
    (ioniz micromegasGain eChg electronicsGain shape : ℚ)
    (pos : List V3) (en : List ℚ) : Option Event :=
  (prepareTrack cosF sinF tanF sqrtF vd clock tilt diffSigma massNum ioniz pos en).map
    (makeEventLoop padF expF (conversionFactor micromegasGain eChg electronicsGain)
      shape clock)

/-- C4: the event loop iterates over every diffused point except the last
(the last row's content never affects the result); a point whose pad
lookup returns the sentinel 20000 contributes nothing to the event; and a
point whose time bucket exceeds 511 is silently dropped — the embedding
has no error outcome (the throwing branch is commented out in the
source), and no signal amplitude is accumulated for such a point: every
pad's signal is left unchanged except that the point's own pad is
allocated its previous (or zero) signal. -/
theorem makeEvent_skip_semantics (padF : ℚ → ℚ → ℕ) (expF : ℚ → ℚ)
    (convFactor shape clock : ℚ) :
    (∀ (uncal : List Row4) (p q : Row4),
      makeEventLoop padF expF convFactor shape clock (uncal ++ [p])
        = makeEventLoop padF expF convFactor shape clock (uncal ++ [q])) ∧
    (∀ (st : Event) (u : Row4), padF u.x u.y = 20000 →
      processPoint padF expF convFactor shape clock st u = st) ∧
    (∀ (st : Event) (u : Row4), padF u.x u.y ≠ 20000 → u.z > 511 →
      ∀ r : ℕ, getSignal (processPoint padF expF convFactor shape clock st u) r
        = if padF u.x u.y = r
          then some ((getSignal st (padF u.x u.y)).getD zeroSignal)
          else getSignal st r) := by
  refine ⟨?_, ?_, ?_⟩
  · intro uncal p q
    rw [makeEventLoop, makeEventLoop, List.dropLast_concat, List.dropLast_concat]
  · intro st u h
    simp [processPoint, h]
  · intro st u hne hz r
    simp only [processPoint, if_pos hne, if_pos hz]
    rw [getSignal_setSignal]

/-- Witness for C4 at concrete pad functions, states and points. -/
theorem makeEvent_skip_semantics_witness :
    (makeEventLoop (fun _ _ => 20000) id 1 1 1 ([] ++ [Row4.mk 0 0 0 1])
       = makeEventLoop (fun _ _ => 20000) id 1 1 1 ([] ++ [Row4.mk 5 5 600 3])) ∧
    (processPoint (fun _ _ => 20000) id 1 1 1 [] (Row4.mk 1 2 3 4) = []) ∧
    (getSignal (processPoint (fun _ _ => 7) id 1 1 1 [] (Row4.mk 1 2 600 4)) 7
       = if (fun _ _ => 7) (Row4.mk 1 2 600 4).x (Row4.mk 1 2 600 4).y = 7
         then some ((getSignal ([] : Event) ((fun _ _ => 7) (Row4.mk 1 2 600 4).x
             (Row4.mk 1 2 600 4).y)).getD zeroSignal)
         else getSignal ([] : Event) 7) :=
  ⟨(makeEvent_skip_semantics (fun _ _ => 20000) id 1 1 1).1 [] (Row4.mk 0 0 0 1)
      (Row4.mk 5 5 600 3),
   (makeEvent_skip_semantics (fun _ _ => 20000) id 1 1 1).2.1 [] (Row4.mk 1 2 3 4) rfl,
   (makeEvent_skip_semantics (fun _ _ => 7) id 1 1 1).2.2 [] (Row4.mk 1 2 600 4)
      (by decide) (by norm_num) 7⟩

/-- C9: the zero signal is allocated when a pad is first encountered,
before the time-bucket overflow check, so a pad all of whose contributing
points have time bucket above 511 still appears as a key of the returned
event with an identically zero 512-sample signal. -/
theorem makeEvent_zero_signal_pad (padF : ℚ → ℚ → ℕ) (expF : ℚ → ℚ)
    (convFactor shape clock : ℚ) (st : Event) (u last : Row4) (q : ℕ)
    (hq : padF u.x u.y = q) (hq2 : q ≠ 20000) (hz : u.z > 511)
    (hmiss : getSignal st q = none) :
    getSignal (processPoint padF expF convFactor shape clock st u) q = some zeroSignal ∧
    makeEventLoop padF expF convFactor shape clock [u, last] = [(q, zeroSignal)] ∧
    zeroSignal.length = 512 ∧ ∀ v ∈ zeroSignal, v = 0 := by
  have hne : padF u.x u.y ≠ 20000 := by rw [hq]; exact hq2
  refine ⟨?_, ?_, by rw [zeroSignal, List.length_replicate],
    fun v hv => List.eq_of_mem_replicate hv⟩
  · simp only [processPoint, if_pos hne, if_pos hz]
    rw [getSignal_setSignal, hq, if_pos rfl, hmiss]
    rfl
  · have hdrop : ([u, last] : List Row4).dropLast = [u] := rfl
    rw [makeEventLoop, hdrop, List.foldl_cons, List.foldl_nil]
    simp only [processPoint, if_pos hne, if_pos hz]
    rw [hq]
    simp [getSignal, setSignal]

/-- Witness for C9: a single overflowing point on pad 7. -/
theorem makeEvent_zero_signal_pad_witness :
    getSignal (processPoint (fun _ _ => 7) id 1 1 1 [] (Row4.mk 1 2 600 3)) 7
        = some zeroSignal ∧
    makeEventLoop (fun _ _ => 7) id 1 1 1 [Row4.mk 1 2 600 3, Row4.mk 0 0 0 0]
        = [(7, zeroSignal)] ∧
    zeroSignal.length = 512 ∧ ∀ v ∈ zeroSignal, v = 0 :=
  makeEvent_zero_signal_pad (fun _ _ => 7) id 1 1 1 [] (Row4.mk 1 2 600 3)
    (Row4.mk 0 0 0 0) 7 rfl (by decide) (by norm_num) rfl

/-- `arma .max()` of a signal: folded maximum seeded with the head (the
C++ call requires a nonempty vector; every event signal has 512
samples). -/
def sigMax (sig : Signal) : ℚ := sig.foldl max (sig.headD 0)

/-- The per-pad body of `EventGenerator::makePeaksTableFromSimulation`:
`pkPts = arma::find(sig > 0.3*sig.max())`, `pkVals = sig.elem(pkPts)`,
`total = sum(pkVals)`; a pad with `total < 1e-3` is discarded
(`continue`), otherwise the row (pad center x, pad center y,
`dot(pkPts, pkVals)/sum(pkVals)`, `sig.max()`, pad number) is emitted. -/
def peakRow (padCtrX padCtrY : ℚ) (padNum : ℕ) (sig : Signal) :
    Option (ℚ × ℚ × ℚ × ℚ × ℚ) :=
  let m := sigMax sig
  let pkPts := (List.range sig.length).filter (fun i => sig.getD i 0 > (3/10) * m)
  let pkVals := pkPts.map (fun i => sig.getD i 0)
  let total := pkVals.sum
  if total < 1/1000 then none
  else some (padCtrX, padCtrY,
    (List.zipWith (fun (i : ℕ) (v : ℚ) => (i : ℚ) * v) pkPts pkVals).sum / pkVals.sum,
    m, (padNum : ℚ))

/-- `EventGenerator::makePeaksTableFromSimulation`: one optional row per
event entry.  `padCtr` abstracts `PadPlane::getPadCenter`. -/
def makePeaksTable (padCtr : ℕ → ℚ × ℚ) (evt : Event) : List (ℚ × ℚ × ℚ × ℚ × ℚ) :=
  evt.filterMap (fun kv => peakRow (padCtr kv.1).1 (padCtr kv.1).2 kv.1 kv.2)

/-- The all-zero signal evaluates to 0 at every index. -/
theorem getD_zeroSignal (i : ℕ) : zeroSignal.getD i 0 = 0 := by
  rw [zeroSignal, List.getD_eq_getElem?_getD, List.getElem?_replicate]
  by_cases h : i < 512 <;> simp [h]

/-- The armadillo maximum of the all-zero signal is 0. -/
theorem sigMax_zeroSignal : sigMax zeroSignal = 0 := by
  have h : ∀ n : ℕ, (List.replicate n (0 : ℚ)).foldl max 0 = 0 := by
    intro n
    induction n with
    | zero => rfl
    | succ k ih => simp [List.replicate_succ, ih]
  rw [sigMax, zeroSignal]
  rw [show (List.replicate 512 (0 : ℚ)).headD 0 = 0 from by rw [List.replicate_succ]; rfl]
  exact h 512

/-- The all-zero signal produces no peak-table row. -/
theorem peakRow_zeroSignal (cx cy : ℚ) (n : ℕ) : peakRow cx cy n zeroSignal = none := by
  have hfil : (List.range zeroSignal.length).filter
      (fun i => zeroSignal.getD i 0 > (3/10) * sigMax zeroSignal) = [] := by
    rw [List.filter_eq_nil_iff]
    intro a _
    have hg := getD_zeroSignal a
    rw [List.getD_eq_getElem?_getD] at hg
    simp [hg, sigMax_zeroSignal]
  simp only [peakRow, hfil]
  norm_num

/-- C5 counterexample: the all-zero 512-sample pad signal has its maximum
(0) exactly at the 30%-threshold boundary (0 = 0.3·0), yet it is *not*
included: `peakRow` discards it and the peak table of an event holding it
is empty, contradicting the claim that a pad signal whose maximum is
exactly at the 30%-threshold boundary is included. -/
theorem peakRow_boundary_counterexample :
    sigMax zeroSignal = (3/10) * sigMax zeroSignal ∧
    peakRow 0 0 5 zeroSignal = none ∧
    makePeaksTable (fun _ => (0, 0)) [(5, zeroSignal)] = [] := by
  refine ⟨by rw [sigMax_zeroSignal]; norm_num, peakRow_zeroSignal 0 0 5, ?_⟩
  simp [makePeaksTable, List.filterMap_cons, peakRow_zeroSignal]

/-- C5 (amended): each emitted peak-table row is (pad center x, pad
center y, charge-weighted centroid over the samples strictly exceeding
30% of the pad's peak, peak amplitude, pad id); a pad whose thresholded
charge sum is below 1e-3 produces no row — in particular the all-zero
signal produces none — and the maximum sample passes the strict 30%
threshold precisely when the maximum is positive (a zero maximum, the
only way a maximum can sit exactly at its own 30% boundary, is
excluded). -/
theorem makePeaksTable_filtering (padCtr : ℕ → ℚ × ℚ) (evt : Event)
    (row : ℚ × ℚ × ℚ × ℚ × ℚ) (cx cy : ℚ) (n : ℕ) (sig : Signal) :
    (row ∈ makePeaksTable padCtr evt ↔
      ∃ p s, (p, s) ∈ evt ∧ peakRow (padCtr p).1 (padCtr p).2 p s = some row) ∧
    ((((List.range sig.length).filter
        (fun i => sig.getD i 0 > (3/10) * sigMax sig)).map
          (fun i => sig.getD i 0)).sum < 1/1000 → peakRow cx cy n sig = none) ∧
    (peakRow cx cy n zeroSignal = none) ∧
    (peakRow cx cy n sig = some row →
      row = (cx, cy,
        (List.zipWith (fun (i : ℕ) (v : ℚ) => (i : ℚ) * v)
            ((List.range sig.length).filter (fun i => sig.getD i 0 > (3/10) * sigMax sig))
            (((List.range sig.length).filter
               (fun i => sig.getD i 0 > (3/10) * sigMax sig)).map (fun i => sig.getD i 0))).sum
          / (((List.range sig.length).filter
               (fun i => sig.getD i 0 > (3/10) * sigMax sig)).map (fun i => sig.getD i 0)).sum,
        sigMax sig, (n : ℚ))) ∧
    (∀ i, i < sig.length → sig.getD i 0 = sigMax sig →
      ((0 : ℚ) < sigMax sig ↔
        i ∈ (List.range sig.length).filter
          (fun j => sig.getD j 0 > (3/10) * sigMax sig))) := by
  refine ⟨?_, ?_, peakRow_zeroSignal cx cy n, ?_, ?_⟩
  · rw [makePeaksTable, List.mem_filterMap]
    constructor
    · rintro ⟨⟨p, s⟩, hmem, heq⟩
      exact ⟨p, s, hmem, heq⟩
    · rintro ⟨p, s, hmem, heq⟩
      exact ⟨(p, s), hmem, heq⟩
  · intro h
    simp only [peakRow]
    rw [if_pos h]
  · intro h
    simp only [peakRow] at h
    split_ifs at h with hc
    exact (Option.some_injective _ h).symm
  · intro i hi heq
    constructor
    · intro hm
      refine List.mem_filter.mpr ⟨List.mem_range.mpr hi, ?_⟩
      simp only [decide_eq_true_eq, gt_iff_lt]
      rw [heq]
      linarith
    · intro hmem
      have hpred := (List.mem_filter.mp hmem).2
      simp only [decide_eq_true_eq, gt_iff_lt] at hpred
      rw [heq] at hpred
      linarith

/-- Witness for the amended C5 at the concrete signal [4, 1]. -/
theorem makePeaksTable_filtering_witness :
    (0 : ℕ) < ([4, 1] : Signal).length ∧
    ([4, 1] : Signal).getD 0 0 = sigMax [4, 1] ∧
    ((0 : ℚ) < sigMax [4, 1] ↔
      0 ∈ (List.range ([4, 1] : Signal).length).filter
        (fun j => ([4, 1] : Signal).getD j 0 > (3/10) * sigMax [4, 1])) :=
  ⟨by decide, by decide,
   (makePeaksTable_filtering (fun _ => (0, 0)) [] (0, 0, 0, 0, 0) 1 2 5 [4, 1]).2.2.2.2
     0 (by decide) (by decide)⟩

/-- Clipping a component into `[lo, hi]`. -/
def clampQ (lo hi v : ℚ) : ℚ := max lo (min hi v)

theorem clampQ_mem (lo hi v : ℚ) (h : lo ≤ hi) :
    lo ≤ clampQ lo hi v ∧ clampQ lo hi v ≤ hi :=
  ⟨le_max_left _ _, max_le h (min_le_left _ _)⟩

/-- Modelled from the spec: `MCminimizer::makeParams(ctr, sigma, numSets,
mins, maxes)` — the implementation file of `MCminimizer` is not among the
sources, only its declaration in MCminimizer.h.  Per the spec, each
sampled parameter vector is drawn from per-component distributions
centered at `ctr` with spread `sigma`, and every component is clipped
into `[mins, maxes]`; the random draw is abstracted by `raw` (set index,
component index ↦ unit draw).  `makeParams ctr sigma raw mins maxes j i`
is component i of sampled vector j. -/
def makeParams (ctr sigma : ℕ → ℚ) (raw : ℕ → ℕ → ℚ) (mins maxes : ℕ → ℚ)
    (j i : ℕ) : ℚ :=
  clampQ (mins i) (maxes i) (ctr i + sigma i * raw j i)

/-- Modelled from the spec: the center of `MCminimizer::minimize` at the
start of iteration k — at each iteration the spread is
`sigma0 * redFactor^k`, a matrix of vectors is sampled by `makeParams`
around the current center, and the best sampled vector becomes the next
center (the deviation-based selection is abstracted by `pick`). -/
def minimizeCtr (pick : (ℕ → ℕ → ℚ) → (ℕ → ℚ)) (raws : ℕ → ℕ → ℕ → ℚ)
    (ctr0 sigma0 mins maxes : ℕ → ℚ) (redFactor : ℚ) : ℕ → (ℕ → ℚ)
  | 0 => ctr0
  | k + 1 => pick (makeParams (minimizeCtr pick raws ctr0 sigma0 mins maxes redFactor k)
      (fun i => sigma0 i * redFactor ^ k) (raws k) mins maxes)

/-- Modelled from the spec: the matrix of parameter vectors sampled
during iteration k of `MCminimizer::minimize`. -/
def minimizeSamples (pick : (ℕ → ℕ → ℚ) → (ℕ → ℚ)) (raws : ℕ → ℕ → ℕ → ℚ)
    (ctr0 sigma0 mins maxes : ℕ → ℚ) (redFactor : ℚ) (k : ℕ) : ℕ → ℕ → ℚ :=
  makeParams (minimizeCtr pick raws ctr0 sigma0 mins maxes redFactor k)
    (fun i => sigma0 i * redFactor ^ k) (raws k) mins maxes

/-- C3 (spec-modelled): every parameter vector produced by `makeParams`,
and hence every parameter vector sampled in every iteration of
`minimize`, satisfies `mins(i) <= v(i) <= maxes(i)` for every component
(given well-formed bounds `mins <= maxes`). -/
theorem makeParams_bounds (ctr sigma : ℕ → ℚ) (raw : ℕ → ℕ → ℚ)
    (mins maxes : ℕ → ℚ) (hlm : ∀ i, mins i ≤ maxes i) :
    (∀ j i, mins i ≤ makeParams ctr sigma raw mins maxes j i ∧
      makeParams ctr sigma raw mins maxes j i ≤ maxes i) ∧
    (∀ (pick : (ℕ → ℕ → ℚ) → (ℕ → ℚ)) (raws : ℕ → ℕ → ℕ → ℚ) (redFactor : ℚ)
       (k j i : ℕ),
      mins i ≤ minimizeSamples pick raws ctr sigma mins maxes redFactor k j i ∧
      minimizeSamples pick raws ctr sigma mins maxes redFactor k j i ≤ maxes i) := by
  refine ⟨fun j i => clampQ_mem _ _ _ (hlm i), fun pick raws redFactor k j i => ?_⟩
  rw [minimizeSamples, makeParams]
  exact clampQ_mem _ _ _ (hlm i)

/-- Witness for C3 at concrete bounds [0, 1] and a large raw draw. -/
theorem makeParams_bounds_witness :
    (∀ i : ℕ, (fun _ : ℕ => (0 : ℚ)) i ≤ (fun _ : ℕ => (1 : ℚ)) i) ∧
    ((0 : ℚ) ≤ makeParams (fun _ => 5) (fun _ => 1) (fun _ _ => 100)
        (fun _ => 0) (fun _ => 1) 0 0 ∧
      makeParams (fun _ => 5) (fun _ => 1) (fun _ _ => 100)
        (fun _ => 0) (fun _ => 1) 0 0 ≤ 1) :=
  ⟨fun _ => by norm_num,
   (makeParams_bounds (fun _ => 5) (fun _ => 1) (fun _ _ => 100) (fun _ => 0) (fun _ => 1)
     (fun _ => by norm_num)).1 0 0⟩
